import Mathlib

/-!
Verification of the client-side data-access layer of the university-directory
application (`src/services/universityService.ts`, local variant, together with
the record schema of `src/types/university.ts`).

Modelling conventions:
* JS strings are Lean `String`; `String.prototype.trim` is modelled by
  `jsTrim` (drop whitespace from both ends), `toLowerCase` by `jsToLower`,
  `String.prototype.includes` by infix testing on the character lists.
* A JS object with possibly-absent keys is a structure of `Option` fields.
  `Record<DegreeLevel, T>` objects are `LevelMap T` with one `Option` field
  per degree level, since at runtime (data parsed from `localStorage`, or a
  payload built without type checking) any key may be absent; the service
  code itself guards with `university.programs?.[level]` and
  `Array.isArray`, anticipating exactly that.
* The local adapter's backing state is `StoreState`: the `localStorage` slot
  under the fixed key (`Slot`: absent, unparsable JSON, or a parsed
  collection) together with the module-level `inMemoryStore` array.
  `JSON.stringify`/`JSON.parse` round-trips are identities on well-formed
  collections, and `clone` is the identity, so both are elided.
* Each async service operation becomes a pure function from `StoreState` to
  `StoreState` paired with its result; a thrown `Error` becomes
  `Except.error` with an `AdapterError` naming the message. The artificial
  `delay` carries no semantics and is elided. `nextId()` (random UUID or
  timestamp) is passed in as an explicit `freshId` argument.
-/

/-- Whitespace recognised by `String.prototype.trim` (the characters that
matter for this data set; the exact JS set also has more exotic ones). -/
def isJsWhitespace (c : Char) : Bool :=
  c == ' ' || c == '\t' || c == '\n' || c == '\r' || c == '\x0b' || c == '\x0c' || c == ' '

/-- Character-list form of `String.prototype.trim`: drop whitespace from the
front, then from the back. -/
def trimList (l : List Char) : List Char :=
  (l.dropWhile isJsWhitespace).rdropWhile isJsWhitespace

/-- Model of `s.trim()`. -/
def jsTrim (s : String) : String :=
  ⟨trimList s.data⟩

/-- Model of `s.toLowerCase()`. -/
def jsToLower (s : String) : String :=
  ⟨s.data.map Char.toLower⟩

/-- Model of `hay.includes(needle)`: the needle's characters occur
contiguously inside the hay's characters. -/
def jsIncludes (hay needle : String) : Bool :=
  decide (needle.data <:+: hay.data)

/-- `export type DegreeLevel = 'bachelor' | 'masters' | 'phd'`. -/
inductive DegreeLevel
  | bachelor
  | masters
  | phd
deriving DecidableEq, Repr

/-- `Program` from `src/types/university.ts`. -/
structure Program where
  name : String
  duration : String
  delivery : String
deriving DecidableEq, Repr

/-- `Scholarship` from `src/types/university.ts`. -/
structure Scholarship where
  name : String
  amount : String
  eligibility : String
  deadline : String
deriving DecidableEq, Repr

/-- A runtime JS object keyed by degree levels: each key may be absent
(`none`).  Used for `programs`, `scholarships` and `averageTuition`. -/
structure LevelMap (α : Type) where
  bachelor : Option α
  masters : Option α
  phd : Option α
deriving DecidableEq, Repr

/-- Key lookup `m[level]` on a `LevelMap`. -/
def LevelMap.get (m : LevelMap α) : DegreeLevel → Option α
  | DegreeLevel.bachelor => m.bachelor
  | DegreeLevel.masters => m.masters
  | DegreeLevel.phd => m.phd

/-- The level map `{ bachelor: x, masters: x, phd: x }` with all three keys
present. -/
def LevelMap.all (x : α) : LevelMap α :=
  ⟨some x, some x, some x⟩

/-- `Fees` from `src/types/university.ts` (`averageTuition` is declared
`Partial`, so absent keys are expected even by the static types).  Monetary
amounts are modelled as integers; no claim computes with them. -/
structure Fees where
  application : Int
  averageTuition : LevelMap Int
deriving DecidableEq, Repr

/-- `University` from `src/types/university.ts`, in its runtime shape:
`overview` and `restrictedCountries` are optional keys, and the two
level-indexed mappings may lack keys at runtime. -/
structure University where
  id : String
  name : String
  portalUrl : String
  location : String
  overview : Option String
  fees : Fees
  programs : LevelMap (List Program)
  scholarships : LevelMap (List Scholarship)
  restrictedCountries : Option (List String)
deriving DecidableEq, Repr

/-- `Partial<University>`: every key may be absent. -/
structure Payload where
  id : Option String
  name : Option String
  portalUrl : Option String
  location : Option String
  overview : Option String
  fees : Option Fees
  programs : Option (LevelMap (List Program))
  scholarships : Option (LevelMap (List Scholarship))
  restrictedCountries : Option (List String)
deriving DecidableEq, Repr

/-- The all-absent payload `{}`. -/
def Payload.empty : Payload :=
  ⟨none, none, none, none, none, none, none, none, none⟩

/-- `UniversityFilters` from `src/services/universityService.ts`. -/
structure UniversityFilters where
  search : Option String
  location : Option String
  degreeLevel : Option DegreeLevel
deriving DecidableEq, Repr

/-- The body of `normalizeUniversity`'s `restrictedCountries` expression:
`(list).map((country) => country.trim()).filter(Boolean)`. -/
def trimFilter (l : List String) : List String :=
  (l.map jsTrim).filter (fun s => s != "")

/-- `normalizeUniversity` (service, lines 486-489): spread the record and
replace `restrictedCountries` by
`(uni.restrictedCountries ?? []).map((c) => c.trim()).filter(Boolean)`. -/
def normalizeUniversity (u : University) : University :=
  { u with restrictedCountries := some (trimFilter (u.restrictedCountries.getD [])) }

/-- `normalizeRestrictedCountries` (service, lines 565-568):
`(list ?? []).map((c) => c.trim()).filter((c, i, arr) => c && arr.indexOf(c) === i)`.
JS `Array.prototype.filter` hands the callback the element, its index and
the (already trimmed) array, modelled through `List.enum`. -/
def normalizeRestrictedCountries (list : Option (List String)) : List String :=
  let arr := (list.getD []).map jsTrim
  (arr.enum.filter (fun pr => pr.2 != "" && (arr.indexOf pr.2 == pr.1))).map Prod.snd

/-- The contents of the `localStorage` slot under `STORAGE_KEY`:
no item, an item that fails `JSON.parse`, or an item holding a parsed
collection. -/
inductive Slot
  | empty : Slot
  | corrupt : Slot
  | valid : List University → Slot
deriving DecidableEq, Repr

/-- State of the local adapter: the durable slot plus the module-level
`inMemoryStore` array. -/
structure StoreState where
  slot : Slot
  mem : List University
deriving DecidableEq, Repr

/-- Errors thrown by the local adapter:
`notFound` is `new Error('University not found')`, `validationError` is
`new Error('Name, portal link, and location are required')`. -/
inductive AdapterError
  | notFound
  | validationError
deriving DecidableEq, Repr

/-- `readStore` (service, lines 496-515), in the environment where
`window.localStorage` exists: a missing item is seeded from
`inMemoryStore` and persisted; unparsable content is removed and replaced
by `inMemoryStore`; parsed content is normalized into `inMemoryStore` (the
slot itself is not rewritten on this path).  Returns the new state and the
returned collection. -/
def readStore : StoreState → StoreState × List University
  | ⟨Slot.empty, mem⟩ => (⟨Slot.valid mem, mem⟩, mem)
  | ⟨Slot.corrupt, mem⟩ => (⟨Slot.valid mem, mem⟩, mem)
  | ⟨Slot.valid data, _⟩ =>
    let normalized := data.map normalizeUniversity
    (⟨Slot.valid data, normalized⟩, normalized)

/-- `writeStore` (service, lines 517-524): normalize the full collection,
store it in `inMemoryStore`, and persist it to the slot. -/
def writeStore (data : List University) : StoreState :=
  let normalized := data.map normalizeUniversity
  ⟨Slot.valid normalized, normalized⟩

/-- The match predicate inside `filterUniversities` (service, lines
528-539): conjunction of search (case-insensitive substring on `name`),
location (case-insensitive equality) and degree level (the `programs` key
holds an array with at least one entry).  An absent or empty (falsy)
`search`/`location` matches everything. -/
def filterMatch (filters : UniversityFilters) (u : University) : Bool :=
  let matchesSearch :=
    match filters.search with
    | some s => if s == "" then true else jsIncludes (jsToLower u.name) (jsToLower s)
    | none => true
  let matchesLocation :=
    match filters.location with
    | some loc => if loc == "" then true else jsToLower u.location == jsToLower loc
    | none => true
  let matchesDegree :=
    match filters.degreeLevel with
    | some level =>
      match u.programs.get level with
      | some arr => decide (arr.length > 0)
      | none => false
    | none => true
  matchesSearch && matchesLocation && matchesDegree

/-- `filterUniversities` (service, lines 526-541). -/
def filterUniversities (universities : List University) (filters : Option UniversityFilters) :
    List University :=
  match filters with
  | none => universities
  | some fs => universities.filter (filterMatch fs)

/-- `getUniversities` (service, lines 551-554), without the artificial
delay. -/
def getUniversities (filters : Option UniversityFilters) (s : StoreState) :
    StoreState × List University :=
  let rs := readStore s
  (rs.1, filterUniversities rs.2 filters)

/-- `getUniversity` (service, lines 556-563). -/
def getUniversity (id : String) (s : StoreState) :
    StoreState × Except AdapterError University :=
  let rs := readStore s
  match rs.2.find? (fun u => u.id == id) with
  | some u => (rs.1, Except.ok u)
  | none => (rs.1, Except.error AdapterError.notFound)

/-- The guard of `createUniversity`:
`!payload.name || !payload.portalUrl || !payload.location` — an absent key
and the empty string are the falsy cases for a string-typed field. -/
def requiredMissing (p : Payload) : Bool :=
  p.name.getD "" == "" || p.portalUrl.getD "" == "" || p.location.getD "" == ""

/-- `createUniversity` (service, lines 570-589): validate, read, build the
new record with defaults (`payload.id ?? nextId()` — the caller-supplied id
wins when present), push it and write the collection back.  `freshId`
stands for the `nextId()` call. -/
def createUniversity (freshId : String) (p : Payload) (s : StoreState) :
    StoreState × Except AdapterError University :=
  if requiredMissing p then
    (s, Except.error AdapterError.validationError)
  else
    let rs := readStore s
    let newUniversity : University :=
      { id := p.id.getD freshId
        name := p.name.getD ""
        portalUrl := p.portalUrl.getD ""
        location := p.location.getD ""
        overview := some (p.overview.getD "")
        fees := p.fees.getD ⟨0, ⟨none, none, none⟩⟩
        programs := p.programs.getD (LevelMap.all [])
        scholarships := p.scholarships.getD (LevelMap.all [])
        restrictedCountries := some (normalizeRestrictedCountries p.restrictedCountries) }
    (writeStore (rs.2 ++ [newUniversity]), Except.ok newUniversity)

/-- The object built by `updateUniversity` before re-normalization:
`{...universities[index], ...payload, restrictedCountries: ..., id}` — a
shallow merge where a key present in the payload wins, the
`restrictedCountries` ternary, and the path id pinned last. -/
def mergeUniversity (old : University) (p : Payload) (id : String) : University :=
  { id := id
    name := p.name.getD old.name
    portalUrl := p.portalUrl.getD old.portalUrl
    location := p.location.getD old.location
    overview :=
      match p.overview with
      | some v => some v
      | none => old.overview
    fees := p.fees.getD old.fees
    programs := p.programs.getD old.programs
    scholarships := p.scholarships.getD old.scholarships
    restrictedCountries :=
      some (match p.restrictedCountries with
        | some l => normalizeRestrictedCountries (some l)
        | none => old.restrictedCountries.getD []) }

/-- `findIndex` on `id` followed by in-place replacement, as performed by
`updateUniversity` on the collection returned by `readStore`: replace the
first record whose `id` matches and return the replaced collection together
with the updated record; `none` when no record matches. -/
def updateAt (id : String) (p : Payload) : List University → Option (List University × University)
  | [] => none
  | u :: rest =>
    if u.id == id then
      let updated := normalizeUniversity (mergeUniversity u p id)
      some (updated :: rest, updated)
    else
      match updateAt id p rest with
      | some (l, v) => some (u :: l, v)
      | none => none

/-- `updateUniversity` (service, lines 591-609). -/
def updateUniversity (id : String) (p : Payload) (s : StoreState) :
    StoreState × Except AdapterError University :=
  let rs := readStore s
  match updateAt id p rs.2 with
  | some (universities, updated) => (writeStore universities, Except.ok updated)
  | none => (rs.1, Except.error AdapterError.notFound)

/-! ### Basic facts about the JS string primitives -/

theorem dropWhile_trimList (l : List Char) :
    (trimList l).dropWhile isJsWhitespace = trimList l := by
  rw [List.dropWhile_eq_self_iff]
  intro hl
  obtain ⟨s, hs⟩ := List.rdropWhile_prefix isJsWhitespace (l.dropWhile isJsWhitespace)
  cases hd : (l.dropWhile isJsWhitespace).rdropWhile isJsWhitespace with
  | nil =>
    exfalso
    rw [show trimList l = [] from hd] at hl
    simp at hl
  | cons a t =>
    have hterm : (trimList l).get ⟨0, hl⟩ = a := by
      have h0 := List.get_of_eq (show trimList l = a :: t from hd) ⟨0, hl⟩
      simpa using h0
    rw [hterm]
    rw [hd] at hs
    have hlen : 0 < (l.dropWhile isJsWhitespace).length := by
      rw [← hs]; simp
    have hidem := List.dropWhile_idempotent isJsWhitespace l
    rw [List.dropWhile_eq_self_iff] at hidem
    have hga : (l.dropWhile isJsWhitespace).get ⟨0, hlen⟩ = a := by
      have h1 := List.get_of_eq
        (show l.dropWhile isJsWhitespace = a :: (t ++ s) from by rw [← hs]; rfl) ⟨0, hlen⟩
      simpa using h1
    have h2 := hidem hlen
    rw [hga] at h2
    exact h2

theorem trimList_idem (l : List Char) : trimList (trimList l) = trimList l := by
  have h1 : trimList (trimList l)
      = ((trimList l).dropWhile isJsWhitespace).rdropWhile isJsWhitespace := rfl
  rw [h1, dropWhile_trimList]
  exact List.rdropWhile_idempotent isJsWhitespace (l.dropWhile isJsWhitespace)

theorem jsTrim_idem (s : String) : jsTrim (jsTrim s) = jsTrim s :=
  congrArg String.mk (trimList_idem s.data)

theorem mem_trimFilter {x : String} {l : List String} (h : x ∈ trimFilter l) :
    jsTrim x = x ∧ x ≠ "" := by
  unfold trimFilter at h
  obtain ⟨hmem, hne⟩ := List.mem_filter.mp h
  obtain ⟨y, _, rfl⟩ := List.mem_map.mp hmem
  exact ⟨jsTrim_idem y, by simpa using hne⟩

theorem trimFilter_eq_self {l : List String} (h : ∀ x ∈ l, jsTrim x = x ∧ x ≠ "") :
    trimFilter l = l := by
  unfold trimFilter
  rw [List.map_congr_left (fun x hx => (h x hx).1), List.map_id']
  exact List.filter_eq_self.mpr (fun x hx => by simpa using (h x hx).2)

theorem trimFilter_idem (l : List String) : trimFilter (trimFilter l) = trimFilter l :=
  trimFilter_eq_self (fun _ hx => mem_trimFilter hx)

/-! ### The normalizer -/

theorem normalizeUniversity_fix (u : University) :
    normalizeUniversity (normalizeUniversity u) = normalizeUniversity u := by
  simp [normalizeUniversity, trimFilter_idem]

/-! ### Filter engine semantics -/

/-- The search predicate as the specification words it: absent or empty
search always holds, otherwise the lowercased search string must occur as a
contiguous substring of the lowercased name. -/
def SearchHolds (f : UniversityFilters) (u : University) : Prop :=
  f.search = none ∨ f.search = some "" ∨
    ∃ s, f.search = some s ∧ (jsToLower s).data <:+: (jsToLower u.name).data

/-- The location predicate as the specification words it: absent or empty
location always holds, otherwise the lowercased location must equal the
lowercased filter value exactly. -/
def LocationHolds (f : UniversityFilters) (u : University) : Prop :=
  f.location = none ∨ f.location = some "" ∨
    ∃ loc, f.location = some loc ∧ jsToLower u.location = jsToLower loc

/-- The degree-level predicate as the specification words it: absent level
always holds, otherwise the `programs` mapping must carry at least one
program under that level. -/
def DegreeHolds (f : UniversityFilters) (u : University) : Prop :=
  f.degreeLevel = none ∨
    ∃ level arr, f.degreeLevel = some level ∧ u.programs.get level = some arr ∧ arr ≠ []

def searchBool (f : UniversityFilters) (u : University) : Bool :=
  match f.search with
  | some s => if s == "" then true else jsIncludes (jsToLower u.name) (jsToLower s)
  | none => true

def locationBool (f : UniversityFilters) (u : University) : Bool :=
  match f.location with
  | some loc => if loc == "" then true else jsToLower u.location == jsToLower loc
  | none => true

def degreeBool (f : UniversityFilters) (u : University) : Bool :=
  match f.degreeLevel with
  | some level =>
    match u.programs.get level with
    | some arr => decide (arr.length > 0)
    | none => false
  | none => true

theorem filterMatch_decompose (f : UniversityFilters) (u : University) :
    filterMatch f u = (searchBool f u && locationBool f u && degreeBool f u) := rfl

theorem searchBool_iff (f : UniversityFilters) (u : University) :
    searchBool f u = true ↔ SearchHolds f u := by
  obtain ⟨os, ol, od⟩ := f
  cases os with
  | none => simp [searchBool, SearchHolds]
  | some s =>
    by_cases h : s = ""
    · subst h; simp [searchBool, SearchHolds]
    · simp [searchBool, SearchHolds, h, jsIncludes]

theorem locationBool_iff (f : UniversityFilters) (u : University) :
    locationBool f u = true ↔ LocationHolds f u := by
  obtain ⟨os, ol, od⟩ := f
  cases ol with
  | none => simp [locationBool, LocationHolds]
  | some loc =>
    by_cases h : loc = ""
    · subst h; simp [locationBool, LocationHolds]
    · simp [locationBool, LocationHolds, h]

theorem degreeBool_iff (f : UniversityFilters) (u : University) :
    degreeBool f u = true ↔ DegreeHolds f u := by
  obtain ⟨os, ol, od⟩ := f
  cases od with
  | none => simp [degreeBool, DegreeHolds]
  | some level =>
    cases hq : u.programs.get level with
    | none => simp [degreeBool, DegreeHolds, hq]
    | some arr => simp [degreeBool, DegreeHolds, hq, List.length_pos]

theorem filterMatch_iff (f : UniversityFilters) (u : University) :
    filterMatch f u = true ↔ (SearchHolds f u ∧ LocationHolds f u ∧ DegreeHolds f u) := by
  rw [filterMatch_decompose, Bool.and_eq_true, Bool.and_eq_true]
  exact (and_congr (and_congr (searchBool_iff f u) (locationBool_iff f u))
    (degreeBool_iff f u)).trans and_assoc

/-- C4: for every university and filter object the match is the conjunction
of the three independent predicates (case-insensitive substring on the
name, case-insensitive exact equality on the location, non-empty program
list under the requested degree level), each holding vacuously when its
filter component is absent or empty; every university matches the empty
filter, and filtering is a pure total function that only selects from its
input (it never mutates it and never fails). -/
theorem filter_engine_conjunction (us : List University) (f : UniversityFilters)
    (u : University) :
    (filterMatch f u = true ↔ (SearchHolds f u ∧ LocationHolds f u ∧ DegreeHolds f u)) ∧
    filterMatch ⟨none, none, none⟩ u = true ∧
    filterUniversities us none = us ∧
    List.Sublist (filterUniversities us (some f)) us :=
  ⟨filterMatch_iff f u, rfl, rfl, List.filter_sublist us⟩

/-- C5: the normalizer is idempotent — normalizing an already normalized
record changes nothing. -/
theorem normalizer_idempotent (u : University) :
    normalizeUniversity (normalizeUniversity u) = normalizeUniversity u :=
  normalizeUniversity_fix u

/-! ### Restricted-countries normalization -/

/-- First-occurrence de-duplication with an accumulator of already emitted
values: the element is kept exactly when it has not been seen before, and
its first occurrence keeps its position. -/
def dedupFirstAux (seen : List String) : List String → List String
  | [] => []
  | a :: t => if a ∈ seen then dedupFirstAux seen t else a :: dedupFirstAux (a :: seen) t

/-- The specification's description of restricted-countries normalization:
trim every entry, drop entries that are blank after trimming, then
de-duplicate by exact string equality keeping the first occurrence. -/
def restrictedCountriesSpec (l : List String) : List String :=
  dedupFirstAux [] ((l.map jsTrim).filter (fun s => s != ""))

/-- Left-to-right reading of the `indexOf`-based filter: walk the array,
remembering every element already passed (kept or not), and keep a
non-blank element exactly when it did not occur earlier. -/
def dedupSeen (seen : List String) : List String → List String
  | [] => []
  | a :: t =>
    if a ≠ "" ∧ a ∉ seen then a :: dedupSeen (seen ++ [a]) t
    else dedupSeen (seen ++ [a]) t

theorem indexOf_append_cons_of_not_mem {a : String} {pre : List String} (t : List String)
    (h : a ∉ pre) : (pre ++ a :: t).indexOf a = pre.length := by
  induction pre with
  | nil => simp [List.indexOf, List.findIdx_cons]
  | cons b pre ih =>
    have hb : (b == a) = false := by
      simp only [List.mem_cons] at h
      simpa using fun hba => h (Or.inl hba.symm)
    have := ih (fun hm => h (List.mem_cons_of_mem b hm))
    simp only [List.cons_append, List.indexOf, List.findIdx_cons, hb, cond_false,
      List.length_cons]
    simp only [List.indexOf] at this
    omega

theorem indexOf_append_cons_of_mem {a : String} {pre : List String} (t : List String)
    (h : a ∈ pre) : (pre ++ a :: t).indexOf a < pre.length := by
  induction pre with
  | nil => simp at h
  | cons b pre ih =>
    by_cases hb : b = a
    · subst hb
      simp [List.indexOf, List.findIdx_cons]
    · have hmem : a ∈ pre := by
        rcases List.mem_cons.mp h with h1 | h1
        · exact absurd h1.symm hb
        · exact h1
      have hbb : (b == a) = false := by simpa using hb
      have := ih hmem
      simp only [List.cons_append, List.indexOf, List.findIdx_cons, hbb, cond_false,
        List.length_cons]
      simp only [List.indexOf] at this
      omega

theorem enumFrom_filter_eq_dedupSeen (t : List String) :
    ∀ pre : List String,
      ((List.enumFrom pre.length t).filter
          (fun pr => pr.2 != "" && ((pre ++ t).indexOf pr.2 == pr.1))).map Prod.snd
        = dedupSeen pre t := by
  induction t with
  | nil => intro pre; simp [dedupSeen]
  | cons a t ih =>
    intro pre
    have hsplit : pre ++ a :: t = (pre ++ [a]) ++ t := by simp
    have htail :
        ((List.enumFrom (pre.length + 1) t).filter
            (fun pr => pr.2 != "" && ((pre ++ a :: t).indexOf pr.2 == pr.1))).map Prod.snd
          = dedupSeen (pre ++ [a]) t := by
      rw [hsplit, show pre.length + 1 = (pre ++ [a]).length from by simp]
      exact ih (pre ++ [a])
    have henum : List.enumFrom pre.length (a :: t)
        = (pre.length, a) :: List.enumFrom (pre.length + 1) t := rfl
    rw [henum, List.filter_cons]
    by_cases hcond : a ≠ "" ∧ a ∉ pre
    · have hc : (a != "" && ((pre ++ a :: t).indexOf a == pre.length)) = true := by
        rw [show (a != "") = true from by simpa using hcond.1,
          show ((pre ++ a :: t).indexOf a == pre.length) = true from by
            simpa using indexOf_append_cons_of_not_mem t hcond.2]
        rfl
      rw [if_pos hc, List.map_cons, htail]
      simp [dedupSeen, hcond]
    · have hc : ¬((a != "" && ((pre ++ a :: t).indexOf a == pre.length)) = true) := by
        by_cases ha : a = ""
        · subst ha; simp
        · have hmem : a ∈ pre := by
            by_contra hnm
            exact hcond ⟨ha, hnm⟩
          have hlt := indexOf_append_cons_of_mem t hmem
          simp only [Bool.and_eq_true, beq_iff_eq]
          rintro ⟨-, h2⟩
          omega
      rw [if_neg hc, htail]
      have hcond2 : ¬(a ≠ "" ∧ a ∉ pre) := hcond
      simp only [dedupSeen, if_neg hcond2]

theorem dedupSeen_eq_dedupFirstAux (t : List String) :
    ∀ s₁ s₂ : List String, (∀ x : String, x ≠ "" → (x ∈ s₁ ↔ x ∈ s₂)) →
      dedupSeen s₁ t = dedupFirstAux s₂ (t.filter (fun s => s != "")) := by
  induction t with
  | nil => intro s₁ s₂ _; simp [dedupSeen, dedupFirstAux]
  | cons a t ih =>
    intro s₁ s₂ hinv
    by_cases ha : a = ""
    · subst ha
      rw [show dedupSeen s₁ ("" :: t) = dedupSeen (s₁ ++ [""]) t from by simp [dedupSeen]]
      rw [show ("" :: t).filter (fun s => s != "") = t.filter (fun s => s != "") from by simp]
      refine ih _ s₂ (fun x hx => ?_)
      simp only [List.mem_append, List.mem_singleton]
      constructor
      · rintro (h1 | h1)
        · exact (hinv x hx).mp h1
        · exact absurd h1 hx
      · intro h1
        exact Or.inl ((hinv x hx).mpr h1)
    · have hfilter : (a :: t).filter (fun s => s != "") =
          a :: t.filter (fun s => s != "") := by simp [ha]
      rw [hfilter]
      by_cases hm : a ∈ s₁
      · have hm₂ : a ∈ s₂ := (hinv a ha).mp hm
        rw [show dedupSeen s₁ (a :: t) = dedupSeen (s₁ ++ [a]) t from by
          simp [dedupSeen, hm]]
        rw [show dedupFirstAux s₂ (a :: t.filter (fun s => s != "")) =
          dedupFirstAux s₂ (t.filter (fun s => s != "")) from by simp [dedupFirstAux, hm₂]]
        refine ih _ s₂ (fun x hx => ?_)
        simp only [List.mem_append, List.mem_singleton]
        constructor
        · rintro (h1 | h1)
          · exact (hinv x hx).mp h1
          · subst h1; exact hm₂
        · intro h1
          exact Or.inl ((hinv x hx).mpr h1)
      · have hm₂ : a ∉ s₂ := fun hc => hm ((hinv a ha).mpr hc)
        rw [show dedupSeen s₁ (a :: t) = a :: dedupSeen (s₁ ++ [a]) t from by
          simp [dedupSeen, ha, hm]]
        rw [show dedupFirstAux s₂ (a :: t.filter (fun s => s != "")) =
          a :: dedupFirstAux (a :: s₂) (t.filter (fun s => s != "")) from by
          simp [dedupFirstAux, hm₂]]
        congr 1
        refine ih _ (a :: s₂) (fun x hx => ?_)
        simp only [List.mem_append, List.mem_singleton, List.mem_cons]
        constructor
        · rintro (h1 | h1)
          · exact Or.inr ((hinv x hx).mp h1)
          · simp only [List.mem_nil_iff, or_false] at h1
            exact Or.inl h1
        · rintro (h1 | h1)
          · exact Or.inr (Or.inl h1)
          · exact Or.inl ((hinv x hx).mpr h1)

theorem normalizeRestrictedCountries_eq_spec (o : Option (List String)) :
    normalizeRestrictedCountries o = restrictedCountriesSpec (o.getD []) := by
  have h0 := enumFrom_filter_eq_dedupSeen ((o.getD []).map jsTrim) []
  simp only [List.length_nil, List.nil_append] at h0
  have h1 := dedupSeen_eq_dedupFirstAux ((o.getD []).map jsTrim) [] []
    (fun x _ => Iff.rfl)
  exact h0.trans h1

/-- C8: restricted-countries normalization trims every entry, drops the
entries that are blank after trimming, and de-duplicates by exact
case-sensitive string equality keeping the first occurrence's position; in
particular `["USA", " usa ", "Iran", ""]` normalizes to
`["USA", "usa", "Iran"]`. -/
theorem restrictedCountries_normalization (o : Option (List String)) :
    normalizeRestrictedCountries o = restrictedCountriesSpec (o.getD []) ∧
    normalizeRestrictedCountries (some ["USA", " usa ", "Iran", ""])
      = ["USA", "usa", "Iran"] :=
  ⟨normalizeRestrictedCountries_eq_spec o, by decide⟩

/-! ### Validation and missing ids -/

theorem optStr_falsy (o : Option String) :
    (o.getD "" == "") = true ↔ (o = none ∨ o = some "") := by
  cases o with
  | none => simp
  | some v => simp

/-- C6: `create` fails with the validation error exactly when `name`,
`portalUrl` or `location` is absent or the empty string; on that failure
the state — slot and fallback store alike — is returned untouched (the
validation guard runs before any read or write), and on a valid payload
the operation succeeds. -/
theorem create_validation (freshId : String) (p : Payload) (s : StoreState) :
    (requiredMissing p = true ↔
      (p.name = none ∨ p.name = some "" ∨ p.portalUrl = none ∨ p.portalUrl = some "" ∨
        p.location = none ∨ p.location = some "")) ∧
    (requiredMissing p = true →
      createUniversity freshId p s = (s, Except.error AdapterError.validationError)) ∧
    (requiredMissing p = false →
      ∃ u s', createUniversity freshId p s = (s', Except.ok u)) := by
  refine ⟨?_, ?_, ?_⟩
  · unfold requiredMissing
    simp only [Bool.or_eq_true, optStr_falsy]
    tauto
  · intro h
    unfold createUniversity
    rw [if_pos h]
  · intro h
    unfold createUniversity
    rw [if_neg (by simp [h])]
    exact ⟨_, _, rfl⟩

theorem create_validation_witness :
    createUniversity "gen" { Payload.empty with name := some "A" } ⟨Slot.valid [], []⟩
      = (⟨Slot.valid [], []⟩, Except.error AdapterError.validationError) :=
  (create_validation "gen" { Payload.empty with name := some "A" }
    ⟨Slot.valid [], []⟩).2.1 (by decide)

theorem normalizeUniversity_id (u : University) :
    (normalizeUniversity u).id = u.id := rfl

theorem readStore_valid (data mem : List University) :
    readStore ⟨Slot.valid data, mem⟩
      = (⟨Slot.valid data, data.map normalizeUniversity⟩,
         data.map normalizeUniversity) := rfl

theorem updateAt_eq_none {id : String} {p : Payload} {l : List University}
    (h : ∀ u ∈ l, u.id ≠ id) : updateAt id p l = none := by
  induction l with
  | nil => rfl
  | cons u rest ih =>
    have hu : (u.id == id) = false := by
      simpa using h u (List.mem_cons_self u rest)
    simp [updateAt, hu, ih (fun v hv => h v (List.mem_cons_of_mem u hv))]

/-- C7: for an id carried by no stored record, `get` and `update` both fail
with NotFound, and the failed update leaves the persisted collection
unchanged: the slot still holds exactly the same data. -/
theorem get_update_notFound (id : String) (p : Payload) (s : StoreState)
    (data : List University) (hslot : s.slot = Slot.valid data)
    (hid : ∀ u ∈ data, u.id ≠ id) :
    getUniversity id s
      = (⟨Slot.valid data, data.map normalizeUniversity⟩,
         Except.error AdapterError.notFound) ∧
    updateUniversity id p s
      = (⟨Slot.valid data, data.map normalizeUniversity⟩,
         Except.error AdapterError.notFound) := by
  obtain ⟨slot, mem⟩ := s
  simp only at hslot
  subst hslot
  have hids : ∀ u ∈ data.map normalizeUniversity, u.id ≠ id := by
    intro u hu
    obtain ⟨v, hv, rfl⟩ := List.mem_map.mp hu
    exact hid v hv
  constructor
  · have hfind : (data.map normalizeUniversity).find? (fun u => u.id == id) = none :=
      List.find?_eq_none.mpr (fun u hu => by simpa using hids u hu)
    simp [getUniversity, readStore_valid, hfind]
  · have hupd := @updateAt_eq_none id p (data.map normalizeUniversity) hids
    simp [updateUniversity, readStore_valid, hupd]

theorem get_update_notFound_witness :
    getUniversity "zz" ⟨Slot.valid [⟨"u1", "Alpha", "https://a", "USA", some "",
        ⟨0, ⟨none, none, none⟩⟩, LevelMap.all [], LevelMap.all [], some []⟩],
      []⟩
      = (⟨Slot.valid [⟨"u1", "Alpha", "https://a", "USA", some "",
          ⟨0, ⟨none, none, none⟩⟩, LevelMap.all [], LevelMap.all [], some []⟩],
         [⟨"u1", "Alpha", "https://a", "USA", some "",
          ⟨0, ⟨none, none, none⟩⟩, LevelMap.all [], LevelMap.all [], some []⟩]⟩,
         Except.error AdapterError.notFound) ∧
    updateUniversity "zz" Payload.empty ⟨Slot.valid [⟨"u1", "Alpha", "https://a", "USA",
        some "", ⟨0, ⟨none, none, none⟩⟩, LevelMap.all [], LevelMap.all [], some []⟩],
      []⟩
      = (⟨Slot.valid [⟨"u1", "Alpha", "https://a", "USA", some "",
          ⟨0, ⟨none, none, none⟩⟩, LevelMap.all [], LevelMap.all [], some []⟩],
         [⟨"u1", "Alpha", "https://a", "USA", some "",
          ⟨0, ⟨none, none, none⟩⟩, LevelMap.all [], LevelMap.all [], some []⟩]⟩,
         Except.error AdapterError.notFound) := by
  have h := get_update_notFound "zz" Payload.empty
    ⟨Slot.valid [⟨"u1", "Alpha", "https://a", "USA", some "",
        ⟨0, ⟨none, none, none⟩⟩, LevelMap.all [], LevelMap.all [], some []⟩], []⟩
    [⟨"u1", "Alpha", "https://a", "USA", some "",
        ⟨0, ⟨none, none, none⟩⟩, LevelMap.all [], LevelMap.all [], some []⟩]
    rfl (by decide)
  exact h

/-- The record created by the whitespace-name payload of the next
theorem. -/
def wsUni : University :=
  ⟨"gen", " ", "https://x", "L", some "", ⟨0, ⟨none, none, none⟩⟩,
    LevelMap.all [], LevelMap.all [], some []⟩

/-- C10: create's required-field validation only tests falsiness (absent
key or empty string), not blankness after trimming: the payload whose name
is the whitespace-only string " " (with non-empty portalUrl and location)
is accepted, and the whitespace-only name is persisted verbatim. -/
theorem create_accepts_whitespace_name :
    createUniversity "gen"
      { Payload.empty with
          name := some " ", portalUrl := some "https://x", location := some "L" }
      ⟨Slot.valid [], []⟩
      = (⟨Slot.valid [wsUni], [wsUni]⟩, Except.ok wsUni) ∧
    wsUni.name = " " := by
  exact ⟨rfl, rfl⟩

/-! ### Corrupt-slot behaviour -/

/-- C9 counterexample: two states whose slots both hold unparsable content
but whose in-memory fallback collections differ.  Both reads succeed, and
each returns (and writes back) its own fallback collection — two different
collections, so the corrupt slot is not reset to the one fixed seed
dataset; it is reset to whatever `inMemoryStore` currently holds. -/
theorem readStore_corrupt_counterexample :
    readStore ⟨Slot.corrupt, [wsUni]⟩ = (⟨Slot.valid [wsUni], [wsUni]⟩, [wsUni]) ∧
    readStore ⟨Slot.corrupt, []⟩ = (⟨Slot.valid [], []⟩, ([] : List University)) ∧
    ([wsUni] : List University) ≠ [] :=
  ⟨rfl, rfl, by simp⟩

/-- C9 (amended): when the persisted slot fails to parse, a read does not
fail and surfaces no error — the slot is reset to the current in-memory
fallback collection (which equals the seed dataset only until the first
successful read or write replaces it) and the read returns that
collection. -/
theorem readStore_corrupt_selfHealing (mem : List University) :
    readStore ⟨Slot.corrupt, mem⟩ = (⟨Slot.valid mem, mem⟩, mem) := rfl

/-! ### Create: defaults, appended record, caller-supplied ids -/

theorem mem_normalizeRestrictedCountries {x : String} {o : Option (List String)}
    (h : x ∈ normalizeRestrictedCountries o) : jsTrim x = x ∧ x ≠ "" := by
  unfold normalizeRestrictedCountries at h
  simp only at h
  obtain ⟨pr, hpr, rfl⟩ := List.mem_map.mp h
  obtain ⟨hmem, hcond⟩ := List.mem_filter.mp hpr
  have hsnd : pr.2 ∈ (o.getD []).map jsTrim := by
    have hg := List.mem_enum_iff_getElem?.mp hmem
    exact List.getElem?_mem hg
  obtain ⟨y, _, hy⟩ := List.mem_map.mp hsnd
  constructor
  · rw [← hy]; exact jsTrim_idem y
  · have := (Bool.and_eq_true _ _).mp hcond |>.1
    simpa using this

theorem normalizeRestrictedCountries_trimFixed (o : Option (List String)) :
    trimFilter (normalizeRestrictedCountries o) = normalizeRestrictedCountries o :=
  trimFilter_eq_self (fun _ hx => mem_normalizeRestrictedCountries hx)

theorem map_normalize_of_fixed {l : List University}
    (h : ∀ v ∈ l, normalizeUniversity v = v) : l.map normalizeUniversity = l := by
  rw [List.map_congr_left h, List.map_id']

theorem normalize_fixed_of_mem {v : University} {data : List University}
    (h : v ∈ data.map normalizeUniversity) : normalizeUniversity v = v := by
  obtain ⟨w, _, rfl⟩ := List.mem_map.mp h
  exact normalizeUniversity_fix w

/-- A stored record with id `"u1"`, already in normalized form. -/
def uniA : University :=
  ⟨"u1", "Alpha University", "https://alpha", "USA", some "", ⟨0, ⟨none, none, none⟩⟩,
    LevelMap.all [], LevelMap.all [], some []⟩

/-- The record produced by creating with payload id `"u1"` while `"u1"` is
already taken. -/
def uniB : University :=
  ⟨"u1", "Beta University", "https://beta", "UK", some "", ⟨0, ⟨none, none, none⟩⟩,
    LevelMap.all [], LevelMap.all [], some []⟩

/-- C2 counterexample: `create` does not assign a fresh collision-free id —
`payload.id ?? nextId()` prefers the caller-supplied id, so creating with
payload id `"u1"` against a store already holding id `"u1"` succeeds,
returns a record whose id equals the existing record's id (and is not the
generated fresh id), and persists a collection with a duplicate id. -/
theorem create_payload_id_counterexample :
    createUniversity "fresh-id"
      { Payload.empty with
          id := some "u1"
          name := some "Beta University"
          portalUrl := some "https://beta"
          location := some "UK" }
      ⟨Slot.valid [uniA], [uniA]⟩
      = (⟨Slot.valid [uniA, uniB], [uniA, uniB]⟩, Except.ok uniB) ∧
    uniB.id = uniA.id ∧
    uniB.id ≠ "fresh-id" :=
  ⟨rfl, rfl, by decide⟩

/-- C2 (amended): on a valid payload, `create` reads the store, builds the
new record with id `payload.id` when present and the generated id
otherwise (no freshness or collision check), normalizes its
restricted-countries entries, appends it to the collection, persists the
normalized collection, and returns exactly the record that was stored (the
new record is a fixed point of the write-time normalizer). -/
theorem create_appends_and_returns (freshId : String) (p : Payload) (s : StoreState)
    (h : requiredMissing p = false) :
    ∃ u : University,
      createUniversity freshId p s = (writeStore ((readStore s).2 ++ [u]), Except.ok u) ∧
      u.id = p.id.getD freshId ∧
      normalizeUniversity u = u ∧
      (writeStore ((readStore s).2 ++ [u])).slot
        = Slot.valid ((readStore s).2.map normalizeUniversity ++ [u]) ∧
      (writeStore ((readStore s).2 ++ [u])).mem
        = (readStore s).2.map normalizeUniversity ++ [u] := by
  refine ⟨{ id := p.id.getD freshId
            name := p.name.getD ""
            portalUrl := p.portalUrl.getD ""
            location := p.location.getD ""
            overview := some (p.overview.getD "")
            fees := p.fees.getD ⟨0, ⟨none, none, none⟩⟩
            programs := p.programs.getD (LevelMap.all [])
            scholarships := p.scholarships.getD (LevelMap.all [])
            restrictedCountries := some (normalizeRestrictedCountries p.restrictedCountries) },
    ?_, rfl, ?_, ?_, ?_⟩
  · unfold createUniversity
    rw [if_neg (by simp [h])]
  · simp [normalizeUniversity, normalizeRestrictedCountries_trimFixed]
  · simp [writeStore, List.map_append, normalizeUniversity,
      normalizeRestrictedCountries_trimFixed]
  · simp [writeStore, List.map_append, normalizeUniversity,
      normalizeRestrictedCountries_trimFixed]

theorem create_appends_and_returns_witness :
    ∃ u : University,
      createUniversity "gen"
          { Payload.empty with
              name := some "Beta University"
              portalUrl := some "https://beta"
              location := some "UK" }
          ⟨Slot.valid [uniA], [uniA]⟩
        = (writeStore ((readStore ⟨Slot.valid [uniA], [uniA]⟩).2 ++ [u]), Except.ok u) ∧
      u.id = (({ Payload.empty with
          name := some "Beta University"
          portalUrl := some "https://beta"
          location := some "UK" } : Payload)).id.getD "gen" ∧
      normalizeUniversity u = u ∧
      (writeStore ((readStore ⟨Slot.valid [uniA], [uniA]⟩).2 ++ [u])).slot
        = Slot.valid ((readStore ⟨Slot.valid [uniA], [uniA]⟩).2.map normalizeUniversity ++ [u]) ∧
      (writeStore ((readStore ⟨Slot.valid [uniA], [uniA]⟩).2 ++ [u])).mem
        = (readStore ⟨Slot.valid [uniA], [uniA]⟩).2.map normalizeUniversity ++ [u] :=
  create_appends_and_returns "gen"
    { Payload.empty with
        name := some "Beta University"
        portalUrl := some "https://beta"
        location := some "UK" }
    ⟨Slot.valid [uniA], [uniA]⟩ rfl

/-! ### Degree-level keys of persisted records -/

/-- A record persisted through `create` whose programs mapping carries only
the bachelor key. -/
def partialUni : University :=
  ⟨"u1", "A", "https://a", "L", some "", ⟨0, ⟨none, none, none⟩⟩,
    ⟨some [⟨"CS", "4y", "campus"⟩], none, none⟩, LevelMap.all [], some []⟩

/-- C1 counterexample: a University record persisted through the local
adapter's create (with a programs mapping carrying only the bachelor key)
and then re-read via get comes back with the masters and phd keys still
absent — no read-time normalization repairs missing degree-level keys,
since `normalizeUniversity` touches only `restrictedCountries`. -/
theorem persisted_partial_programs_counterexample :
    (createUniversity "u1"
        { Payload.empty with
            name := some "A"
            portalUrl := some "https://a"
            location := some "L"
            programs := some ⟨some [⟨"CS", "4y", "campus"⟩], none, none⟩ }
        ⟨Slot.valid [], []⟩).1
      = ⟨Slot.valid [partialUni], [partialUni]⟩ ∧
    getUniversity "u1" ⟨Slot.valid [partialUni], [partialUni]⟩
      = (⟨Slot.valid [partialUni], [partialUni]⟩, Except.ok partialUni) ∧
    partialUni.programs.masters = none ∧
    partialUni.programs.phd = none :=
  ⟨rfl, rfl, rfl, rfl⟩

/-- C1 (amended): the three degree-level keys come only from create's
defaulting — when a payload omits the programs and scholarships mappings
entirely, the created record stores all three keys mapped to empty
sequences; read-time normalization performs no repair: it leaves the
`programs` and `scholarships` of every record exactly as persisted. -/
theorem create_defaults_degree_keys (freshId : String) (p : Payload) (s : StoreState)
    (hprog : p.programs = none) (hsch : p.scholarships = none)
    (hvalid : requiredMissing p = false) :
    (∃ u : University,
      createUniversity freshId p s = (writeStore ((readStore s).2 ++ [u]), Except.ok u) ∧
      u.programs = LevelMap.all [] ∧ u.scholarships = LevelMap.all []) ∧
    (∀ u : University, (normalizeUniversity u).programs = u.programs ∧
      (normalizeUniversity u).scholarships = u.scholarships) := by
  constructor
  · refine ⟨{ id := p.id.getD freshId
              name := p.name.getD ""
              portalUrl := p.portalUrl.getD ""
              location := p.location.getD ""
              overview := some (p.overview.getD "")
              fees := p.fees.getD ⟨0, ⟨none, none, none⟩⟩
              programs := p.programs.getD (LevelMap.all [])
              scholarships := p.scholarships.getD (LevelMap.all [])
              restrictedCountries := some (normalizeRestrictedCountries p.restrictedCountries) },
      ?_, ?_, ?_⟩
    · unfold createUniversity
      rw [if_neg (by simp [hvalid])]
    · simp [hprog]
    · simp [hsch]
  · exact fun u => ⟨rfl, rfl⟩

theorem create_defaults_degree_keys_witness :
    (∃ u : University,
      createUniversity "u9"
          { Payload.empty with
              name := some "A"
              portalUrl := some "https://a"
              location := some "L" }
          ⟨Slot.valid [], []⟩
        = (writeStore ((readStore ⟨Slot.valid [], []⟩).2 ++ [u]), Except.ok u) ∧
      u.programs = LevelMap.all [] ∧ u.scholarships = LevelMap.all []) ∧
    (∀ u : University, (normalizeUniversity u).programs = u.programs ∧
      (normalizeUniversity u).scholarships = u.scholarships) :=
  create_defaults_degree_keys "u9"
    { Payload.empty with
        name := some "A"
        portalUrl := some "https://a"
        location := some "L" }
    ⟨Slot.valid [], []⟩ rfl rfl rfl

/-! ### Update: shallow merge -/

theorem updateAt_append (id : String) (p : Payload) (pre : List University)
    (old : University) (post : List University)
    (hpre : ∀ v ∈ pre, v.id ≠ id) (hold : old.id = id) :
    updateAt id p (pre ++ old :: post)
      = some (pre ++ normalizeUniversity (mergeUniversity old p id) :: post,
              normalizeUniversity (mergeUniversity old p id)) := by
  induction pre with
  | nil => simp [updateAt, hold]
  | cons v pre ih =>
    have hv : (v.id == id) = false := by
      simpa using hpre v (List.mem_cons_self v pre)
    simp [updateAt, hv, ih (fun w hw => hpre w (List.mem_cons_of_mem v hw))]

/-- C3: for an existing id, update performs a shallow merge of the payload
onto the existing record as read from the store: every field present in
the payload replaces the old value, every absent field keeps the prior
value (including `restrictedCountries`), the updated record's id is the id
argument regardless of any id in the payload, and the record is persisted
in place. -/
theorem update_shallow_merge (id : String) (p : Payload) (s : StoreState)
    (data pre post : List University) (old : University)
    (hslot : s.slot = Slot.valid data)
    (hdata : data.map normalizeUniversity = pre ++ old :: post)
    (hpre : ∀ v ∈ pre, v.id ≠ id) (hold : old.id = id) :
    ∃ u : University,
      updateUniversity id p s = (writeStore (pre ++ u :: post), Except.ok u) ∧
      u.id = id ∧
      u.name = p.name.getD old.name ∧
      u.portalUrl = p.portalUrl.getD old.portalUrl ∧
      u.location = p.location.getD old.location ∧
      (∀ v, p.overview = some v → u.overview = some v) ∧
      (p.overview = none → u.overview = old.overview) ∧
      u.fees = p.fees.getD old.fees ∧
      u.programs = p.programs.getD old.programs ∧
      u.scholarships = p.scholarships.getD old.scholarships ∧
      (p.restrictedCountries = none → u.restrictedCountries = old.restrictedCountries) ∧
      (writeStore (pre ++ u :: post)).slot = Slot.valid (pre ++ u :: post) := by
  obtain ⟨slot, mem⟩ := s
  simp only at hslot
  subst hslot
  have hold_mem : old ∈ data.map normalizeUniversity := by
    rw [hdata]
    exact List.mem_append_right _ (List.mem_cons_self _ _)
  have hupd : updateAt id p (data.map normalizeUniversity)
      = some (pre ++ normalizeUniversity (mergeUniversity old p id) :: post,
              normalizeUniversity (mergeUniversity old p id)) := by
    rw [hdata]
    exact updateAt_append id p pre old post hpre hold
  refine ⟨normalizeUniversity (mergeUniversity old p id),
    ?_, rfl, rfl, rfl, rfl, ?_, ?_, rfl, rfl, rfl, ?_, ?_⟩
  · simp [updateUniversity, readStore_valid, hupd]
  · intro v hv
    simp [normalizeUniversity, mergeUniversity, hv]
  · intro hv
    simp [normalizeUniversity, mergeUniversity, hv]
  · intro hrc
    obtain ⟨w, hw, hwold⟩ := List.mem_map.mp hold_mem
    have hwrc : old.restrictedCountries
        = some (trimFilter (w.restrictedCountries.getD [])) := by
      rw [← hwold]; rfl
    simp [normalizeUniversity, mergeUniversity, hrc, hwrc, trimFilter_idem]
  · have hfix : ∀ v ∈ pre ++ normalizeUniversity (mergeUniversity old p id) :: post,
        normalizeUniversity v = v := by
      intro v hv
      rcases List.mem_append.mp hv with h1 | h1
      · exact @normalize_fixed_of_mem v data
          (by rw [hdata]; exact List.mem_append_left _ h1)
      · rcases List.mem_cons.mp h1 with h2 | h2
        · subst h2; exact normalizeUniversity_fix _
        · exact @normalize_fixed_of_mem v data
            (by rw [hdata]; exact List.mem_append_right _ (List.mem_cons_of_mem _ h2))
    simp [writeStore, map_normalize_of_fixed hfix]

/-- A payload updating only the overview. -/
def overviewPayload : Payload :=
  { Payload.empty with overview := some "new text" }

theorem update_shallow_merge_witness :
    ∃ u : University,
      updateUniversity "u1" overviewPayload ⟨Slot.valid [uniA], []⟩
        = (writeStore ([] ++ u :: []), Except.ok u) ∧
      u.id = "u1" ∧
      u.name = overviewPayload.name.getD uniA.name ∧
      u.portalUrl = overviewPayload.portalUrl.getD uniA.portalUrl ∧
      u.location = overviewPayload.location.getD uniA.location ∧
      (∀ v, overviewPayload.overview = some v → u.overview = some v) ∧
      (overviewPayload.overview = none → u.overview = uniA.overview) ∧
      u.fees = overviewPayload.fees.getD uniA.fees ∧
      u.programs = overviewPayload.programs.getD uniA.programs ∧
      u.scholarships = overviewPayload.scholarships.getD uniA.scholarships ∧
      (overviewPayload.restrictedCountries = none →
        u.restrictedCountries = uniA.restrictedCountries) ∧
      (writeStore ([] ++ u :: [])).slot = Slot.valid ([] ++ u :: []) :=
  update_shallow_merge "u1" overviewPayload ⟨Slot.valid [uniA], []⟩ [uniA] [] [] uniA
    rfl rfl (by simp) rfl
